import Mathlib

/-!
Shallow embedding of the Gaussian-process regression engine defined in
`src/process/gaussian_process.cpp` (class `gp::GaussianProcess`), together
with theorems checking the natural-language specification against it.

Modelling conventions:
* `double` is modelled by `ℚ`: exact arithmetic over a computable
  linearly ordered field, so every operation in the embedding is
  executable and every claim is stated in exact arithmetic.
* Eigen `VectorXd` points are `List ℚ`; fixed-capacity buffers
  (`targets_`, `regressed_`, the columns of `covariance_`) are total
  functions `ℕ → ℚ`, of which only a prefix is ever written by the code;
  the remaining entries model the indeterminate contents of
  uninitialized memory and are threaded through construction explicitly.
* Eigen sizes a mismatched dynamic-dynamic coefficient-wise operation
  by its RIGHT operand, and size assertions are disabled in release
  builds (`NDEBUG`).  So the mismatched `cross.dot(regressed_)` in
  `Evaluate` iterates `max_points` entries, reading past the end of the
  `n`-length `cross` buffer whenever `n < max_points`; the indeterminate
  out-of-bounds bytes found there are modelled by an explicit `oob`
  argument to `Evaluate` (a debug build aborts at the dot's size
  assertion).  An LLT solve against an oversized right-hand side copies
  the right-hand side and transforms only its first `lltN` entries, so
  `EvaluateTrainingPoint`'s column-length dots iterate `max_points`
  entries over allocated (but stale) buffer tails.
* `llt_` (the cached Cholesky factorization) is modelled by the pair
  `(lltN, lltA)`: the size and the matrix snapshot taken at
  `llt_.compute(...)` time.  In exact arithmetic a Cholesky solve of a
  positive-definite system equals multiplication by the inverse, so
  `llt_.solve(b)` is modelled as `(block of lltA)⁻¹ *ᵥ b`.
* glog `CHECK_*` macros abort the process; an operation guarded by them
  is modelled as returning `Option`, with `none` for a check failure.
* The external ceres optimizer run (`ceres::Solve` on the
  `TrainingLogLikelihood` objective) is an opaque collaborator and is
  modelled as a function argument `opt` from the flat parameter buffer
  to the refined buffer plus the `IsSolutionUsable` flag.
-/

open Matrix

namespace GP

/-- A training or query point: an Eigen `VectorXd`, i.e. a real vector. -/
abbrev Point : Type := List ℚ

/-- Dot product over the first `N` entries of two buffers.  This is Eigen's
`a.dot(b)` where `a` has size `N` (release semantics: the iteration count
is the left operand's size). -/
def dotN (N : ℕ) (a b : ℕ → ℚ) : ℚ := ∑ i ∈ Finset.range N, a i * b i

/-- The top-left `N × N` block of a buffer-backed matrix
(`covariance_.topLeftCorner(n, n)`). -/
def covBlock (A : ℕ → ℕ → ℚ) (N : ℕ) : Matrix (Fin N) (Fin N) ℚ :=
  Matrix.of fun i j => A i.val j.val

/-- Executable matrix inverse over the field `ℚ`: `det⁻¹ • adjugate`.
`matInv_eq_inv` below shows it coincides with Mathlib's `K⁻¹`
(which is not executable) on every square matrix. -/
def matInv {N : ℕ} (K : Matrix (Fin N) (Fin N) ℚ) : Matrix (Fin N) (Fin N) ℚ :=
  K.det⁻¹ • K.adjugate

/-- Model of `llt_.solve(b)` where `llt_` holds the factorization of the
`N × N` block of `A`: in exact arithmetic the Cholesky solve of a
positive-definite system is multiplication by the inverse.  Entries of
`b` at index `≥ N` are left unchanged (release semantics for an
oversized right-hand side; for a right-hand side of size `N` those
entries are never read). -/
def lltSolve (N : ℕ) (A : ℕ → ℕ → ℚ) (b : ℕ → ℚ) : ℕ → ℚ := fun i =>
  if h : i < N then (matInv (covBlock A N) *ᵥ fun j : Fin N => b j.val) ⟨i, h⟩
  else b i

/-- The state of a `gp::GaussianProcess` instance.  `kernelFn` is the
external kernel's `Evaluate` as a function of the kernel's mutable
parameter vector (`Kernel::Params()`), which is stored in `params`. -/
structure GaussianProcess where
  kernelFn : List ℚ → Point → Point → ℚ
  params : List ℚ
  noise : ℚ
  points : List Point
  maxPoints : ℕ
  targets : ℕ → ℚ
  regressed : ℕ → ℚ
  covariance : ℕ → ℕ → ℚ
  lltN : ℕ
  lltA : ℕ → ℕ → ℚ

namespace GaussianProcess

/-- `kernel_->Evaluate` at the instance's current kernel parameters. -/
def KernelEval (gp : GaussianProcess) : Point → Point → ℚ :=
  gp.kernelFn gp.params

/-- The covariance rebuild loop (`GaussianProcess::Covariance`, lines
229–239): for each `ii < n` it writes the diagonal entry `(ii, ii) :=
1 + noise` and, for each `jj < ii`, writes `(ii, jj) := kernel(p_ii,
p_jj)` and mirrors it to `(jj, ii)`.  Every entry of the `n × n` block
is written exactly once, so the loop's final buffer is described
pointwise: inside the block the diagonal is `1 + noise` and the entry
`(i, j)` with `i ≠ j` is the kernel evaluated at
`(p_max(i,j), p_min(i,j))`; entries outside the block keep their
previous contents. -/
def covRebuild (k : Point → Point → ℚ) (pts : List Point) (noise : ℚ)
    (old : ℕ → ℕ → ℚ) : ℕ → ℕ → ℚ := fun i j =>
  if i < pts.length ∧ j < pts.length then
    if i = j then 1 + noise
    else if j < i then k (pts.getD i []) (pts.getD j [])
    else k (pts.getD j []) (pts.getD i [])
  else old i j

/-- The member function `Covariance()`: recompute the valid block of
`covariance_` from the kernel, current points and noise. -/
def Covariance (gp : GaussianProcess) : GaussianProcess :=
  { gp with covariance := covRebuild gp.KernelEval gp.points gp.noise gp.covariance }

/-- `llt_.compute(covariance_.topLeftCorner(n, n))`: snapshot the current
block (size and contents) into the factorization cache. -/
def FactorStep (gp : GaussianProcess) : GaussianProcess :=
  { gp with lltN := gp.points.length, lltA := gp.covariance }

/-- `regressed_.head(n) = llt_.solve(targets_.head(n))`: overwrite the
first `n` regressed coefficients with the solve of the targets; the tail
of the buffer keeps its previous contents. -/
def RegressStep (gp : GaussianProcess) : GaussianProcess :=
  { gp with regressed := fun i =>
      if i < gp.points.length then lltSolve gp.lltN gp.lltA gp.targets i
      else gp.regressed i }

/-- The three-statement cache refresh sequence appearing verbatim in all
three constructors and at the end of `LearnHyperparams`:
`Covariance(); llt_.compute(...); regressed_.head(n) = llt_.solve(...)`. -/
def Rebuild (gp : GaussianProcess) : GaussianProcess :=
  gp.Covariance.FactorStep.RegressStep

/-- `GaussianProcess::CrossCovariance` (lines 241–244): fill an
`n`-length vector whose `ii`-th entry is `kernel(p_ii, x)`.  The vector
has no entries at index `≥ n`; the embedding pads the total function
with `0` there.  Reads past the vector's length — which occur in
`Evaluate`'s size-mismatched mean dot — are modelled separately by
`Evaluate`'s `oob` argument, not by this padding. -/
def CrossCovariance (gp : GaussianProcess) (x : Point) : ℕ → ℚ := fun i =>
  if i < gp.points.length then gp.KernelEval (gp.points.getD i []) x else 0

/-- `GaussianProcess::Evaluate` (lines 161–170): build the `n`-length
cross-covariance vector, then `mean = cross.dot(regressed_)` and
`variance = 1.0 - cross.dot(llt_.solve(cross))`.  Eigen sizes the
mismatched dynamic-dynamic mean dot by its right operand `regressed_`,
so it iterates `max_points` entries and reads past the end of the
`n`-length `cross` buffer whenever `n < max_points`: the indeterminate
bytes found there are the `oob` argument (a debug build aborts at the
dot's size assertion).  The variance dot's right operand
`llt_.solve(cross)` has length `n`, matching `cross`. -/
def Evaluate (gp : GaussianProcess) (oob : ℕ → ℚ) (x : Point) : ℚ × ℚ :=
  let n := gp.points.length
  let cross := gp.CrossCovariance x
  let crossRead : ℕ → ℚ := fun i => if i < n then cross i else oob i
  (dotN gp.maxPoints crossRead gp.regressed,
   1 - dotN n cross (lltSolve gp.lltN gp.lltA cross))

/-- `GaussianProcess::EvaluateTrainingPoint` (lines 173–184):
`CHECK_LT(ii, points_->size())`, then `cross = covariance_.col(ii)` — the
full `max_points`-length column — with `cross(ii) -= noise_`, and the
same two dot-product formulas as `Evaluate`, now iterating over
`cross`'s size `max_points`. -/
def EvaluateTrainingPoint (gp : GaussianProcess) (ii : ℕ) : Option (ℚ × ℚ) :=
  if ii < gp.points.length then
    let cross : ℕ → ℚ := fun j =>
      if j = ii then gp.covariance j ii - gp.noise else gp.covariance j ii
    some (dotN gp.maxPoints cross gp.regressed,
          1 - dotN gp.maxPoints cross (lltSolve gp.lltN gp.lltA cross))
  else none

/-- `GaussianProcess::LearnHyperparams` (lines 188–226): copy the
kernel's parameter vector into a flat buffer, run the external optimizer
(`ceres::Solve` on the `TrainingLogLikelihood` objective, abstracted as
`opt`), write the refined buffer back into the kernel's parameter
vector entry by entry, rerun the cache refresh sequence, and return the
optimizer's `IsSolutionUsable()` flag. -/
def LearnHyperparams (gp : GaussianProcess)
    (opt : (ℕ → ℚ) → (ℕ → ℚ) × Bool) : GaussianProcess × Bool :=
  let buf : ℕ → ℚ := fun i => gp.params.getD i 0
  let res := opt buf
  let params2 := gp.params.mapIdx fun i _ => res.1 i
  (({ gp with params := params2 } : GaussianProcess).Rebuild, res.2)

end GaussianProcess

/-- The indeterminate initial contents of the fixed-capacity buffers and
of the default-constructed factorization cache: Eigen's dynamic
matrices and vectors are allocated without zero-initialization, so a
constructor starts from arbitrary contents. -/
structure Uninit where
  targets : ℕ → ℚ
  regressed : ℕ → ℚ
  covariance : ℕ → ℕ → ℚ
  lltN : ℕ
  lltA : ℕ → ℕ → ℚ

open GaussianProcess in
/-- First constructor (lines 51–92): from kernel, noise, dimension and
capacity.  Checks `max_points ≥ 1`, `dimension ≥ 1`, `noise > 0`; then
synthesizes `max_points / 10 + 1` points whose coordinates are
successive draws of the uniform-on-`[-1,1]` sampler (`unif`) and one
target per point from the zero-mean normal sampler (`nrm`), and runs
the cache refresh sequence. -/
def construct1 (kF : List ℚ → Point → Point → ℚ) (ps : List ℚ) (noise : ℚ)
    (dimension maxPoints : ℕ) (unif nrm : ℕ → ℚ) (u : Uninit) :
    Option GaussianProcess :=
  if 1 ≤ maxPoints ∧ 1 ≤ dimension ∧ 0 < noise then
    let count := maxPoints / 10 + 1
    let pts : List Point := (List.range count).map fun ii =>
      (List.range dimension).map fun jj => unif (ii * dimension + jj)
    some (Rebuild
      { kernelFn := kF, params := ps, noise := noise, points := pts,
        maxPoints := maxPoints,
        targets := fun i => if i < count then nrm i else u.targets i,
        regressed := u.regressed, covariance := u.covariance,
        lltN := u.lltN, lltA := u.lltA })
  else none

open GaussianProcess in
/-- Second constructor (lines 94–127): from kernel, noise, an existing
point set and capacity.  Checks `max_points ≥ 1`,
`points.size() ≤ max_points`, `noise > 0`; targets are synthesized from
the normal sampler. -/
def construct2 (kF : List ℚ → Point → Point → ℚ) (ps : List ℚ) (noise : ℚ)
    (pts : List Point) (maxPoints : ℕ) (nrm : ℕ → ℚ) (u : Uninit) :
    Option GaussianProcess :=
  if 1 ≤ maxPoints ∧ pts.length ≤ maxPoints ∧ 0 < noise then
    some (Rebuild
      { kernelFn := kF, params := ps, noise := noise, points := pts,
        maxPoints := maxPoints,
        targets := fun i => if i < pts.length then nrm i else u.targets i,
        regressed := u.regressed, covariance := u.covariance,
        lltN := u.lltN, lltA := u.lltA })
  else none

open GaussianProcess in
/-- Third constructor (lines 129–158): from kernel, noise, an existing
point set, an explicit target vector and capacity.  Checks
`max_points ≥ 1`, `points.size() ≤ max_points`,
`points.size() == targets.size()`, `noise > 0`. -/
def construct3 (kF : List ℚ → Point → Point → ℚ) (ps : List ℚ) (noise : ℚ)
    (pts : List Point) (tgts : List ℚ) (maxPoints : ℕ) (u : Uninit) :
    Option GaussianProcess :=
  if 1 ≤ maxPoints ∧ pts.length ≤ maxPoints ∧ pts.length = tgts.length ∧
      0 < noise then
    some (Rebuild
      { kernelFn := kF, params := ps, noise := noise, points := pts,
        maxPoints := maxPoints,
        targets := fun i => if i < pts.length then tgts.getD i 0 else u.targets i,
        regressed := u.regressed, covariance := u.covariance,
        lltN := u.lltN, lltA := u.lltA })
  else none

/-- A state is freshly rebuilt when it is the result of one of the three
constructors or of a completed `LearnHyperparams` call — exactly the
four places where the cache refresh sequence runs. -/
def FreshlyRebuilt (gp : GaussianProcess) : Prop :=
  (∃ kF ps noise dimension maxPoints unif nrm u,
      construct1 kF ps noise dimension maxPoints unif nrm u = some gp) ∨
  (∃ kF ps noise pts maxPoints nrm u,
      construct2 kF ps noise pts maxPoints nrm u = some gp) ∨
  (∃ kF ps noise pts tgts maxPoints u,
      construct3 kF ps noise pts tgts maxPoints u = some gp) ∨
  (∃ gp0 opt, (GaussianProcess.LearnHyperparams gp0 opt).1 = gp)

/-- An all-zero instance of the indeterminate initial buffer contents,
used to instantiate constructors on concrete inputs. -/
def uZero : Uninit :=
  { targets := fun _ => 0, regressed := fun _ => 0,
    covariance := fun _ _ => 0, lltN := 0, lltA := fun _ _ => 0 }

/-- A tiny concrete pre-state: constant-one kernel, noise `1`, a single
training point `[0]` at capacity `1`, target `2`.  Its `Rebuild` (reached
through `LearnHyperparams` with an identity optimizer) is used to
instantiate theorems with hypotheses on concrete inputs. -/
def tinyGP : GaussianProcess :=
  { kernelFn := fun _ _ _ => 1, params := [], noise := 1, points := [[0]],
    maxPoints := 1, targets := fun i => if i = 0 then 2 else 0,
    regressed := fun _ => 0, covariance := fun _ _ => 0, lltN := 0,
    lltA := fun _ _ => 0 }

/-- The freshly rebuilt state obtained from `tinyGP` by a
`LearnHyperparams` call whose optimizer returns its input unchanged. -/
def tinyFresh : GaussianProcess :=
  (tinyGP.LearnHyperparams fun b => (b, true)).1

/-- A pre-state with one training point but capacity `2`, so the
fixed-capacity buffers have a stale tail: the uninitialized covariance
column entry `(1,0)` holds `1` and the uninitialized regressed entry `1`
holds `r`.  Constant-one kernel, noise `1`, target `2` (chosen so that the
regressed coefficient at index `0` is exactly `1`). -/
def tailGP (r : ℚ) : GaussianProcess :=
  { kernelFn := fun _ _ _ => 1, params := [], noise := 1, points := [[0]],
    maxPoints := 2, targets := fun i => if i = 0 then 2 else 0,
    regressed := fun i => if i = 1 then r else 0,
    covariance := fun i j => if i = 1 ∧ j = 0 then 1 else 0,
    lltN := 0, lltA := fun _ _ => 0 }

/-- A pre-state at full capacity (`2` points, capacity `2`) whose kernel is
NOT symmetric but has unit self-similarity: `k(a,a) = 1`,
`k([0],[1]) = 0`, while `k([1],[0]) = 1/2`.  Noise `1`; the targets
`(2, 1/2)` are the first column of the covariance block, chosen so the
regressed coefficients come out as `(1, 0)`. -/
def skewGP : GaussianProcess :=
  { kernelFn := fun _ a b => if a = b then 1 else if a = [(0 : ℚ)] then 0 else 1/2,
    params := [], noise := 1, points := [[0], [1]],
    maxPoints := 2,
    targets := fun i => if i = 0 then 2 else if i = 1 then 1/2 else 0,
    regressed := fun _ => 0, covariance := fun _ _ => 0, lltN := 0,
    lltA := fun _ _ => 0 }

/-! ### Basic lemmas about the embedding -/

open GaussianProcess

theorem matInv_eq_inv {N : ℕ} (K : Matrix (Fin N) (Fin N) ℚ) : matInv K = K⁻¹ := by
  rw [Matrix.inv_def, Ring.inverse_eq_inv]
  rfl

theorem dotN_eq_dotProduct (N : ℕ) (a b : ℕ → ℚ) :
    dotN N a b = (fun i : Fin N => a i.val) ⬝ᵥ fun i : Fin N => b i.val := by
  unfold dotN Matrix.dotProduct
  exact (Fin.sum_univ_eq_sum_range (fun i => a i * b i) N).symm

theorem dotN_congr {N : ℕ} {a a' b b' : ℕ → ℚ} (ha : ∀ i < N, a i = a' i)
    (hb : ∀ i < N, b i = b' i) : dotN N a b = dotN N a' b' :=
  Finset.sum_congr rfl fun i hi => by
    rw [ha i (Finset.mem_range.mp hi), hb i (Finset.mem_range.mp hi)]

theorem lltSolve_lt {N : ℕ} (A : ℕ → ℕ → ℚ) (b : ℕ → ℚ) {i : ℕ} (h : i < N) :
    lltSolve N A b i = (matInv (covBlock A N) *ᵥ fun j : Fin N => b j.val) ⟨i, h⟩ := by
  simp [lltSolve, h]

theorem lltSolve_congr {N : ℕ} (A : ℕ → ℕ → ℚ) {b b' : ℕ → ℚ}
    (hb : ∀ j < N, b j = b' j) : ∀ i < N, lltSolve N A b i = lltSolve N A b' i := by
  intro i hi
  rw [lltSolve_lt A b hi, lltSolve_lt A b' hi]
  congr 1
  funext j
  exact hb j.val j.isLt

theorem covRebuild_diag {k : Point → Point → ℚ} {pts : List Point} {noise : ℚ}
    {old : ℕ → ℕ → ℚ} {i : ℕ} (hi : i < pts.length) :
    covRebuild k pts noise old i i = 1 + noise := by
  simp [covRebuild, hi]

theorem covRebuild_off {k : Point → Point → ℚ} {pts : List Point} {noise : ℚ}
    {old : ℕ → ℕ → ℚ} {i j : ℕ} (hi : i < pts.length) (hj : j < pts.length)
    (hne : i ≠ j) (hsym : ∀ a b, k a b = k b a) :
    covRebuild k pts noise old i j = k (pts.getD i []) (pts.getD j []) := by
  rcases lt_or_gt_of_ne hne with h | h
  · have h1 : ¬j < i := by omega
    simp only [covRebuild, hi, hj, and_self, if_true, if_neg hne, if_neg h1]
    exact hsym _ _
  · simp only [covRebuild, hi, hj, and_self, if_true, if_neg hne, if_pos h]

theorem covRebuild_mirror {k : Point → Point → ℚ} {pts : List Point} {noise : ℚ}
    {old : ℕ → ℕ → ℚ} {i j : ℕ} (hi : i < pts.length) (hj : j < pts.length) :
    covRebuild k pts noise old i j = covRebuild k pts noise old j i := by
  by_cases he : i = j
  · subst he
    rfl
  · rcases lt_or_gt_of_ne he with h | h
    · have h1 : ¬j < i := by omega
      simp [covRebuild, hi, hj, he, Ne.symm he, h, h1]
    · have h1 : ¬i < j := by omega
      simp [covRebuild, hi, hj, he, Ne.symm he, h, h1]

theorem covRebuild_outside {k : Point → Point → ℚ} {pts : List Point} {noise : ℚ}
    {old : ℕ → ℕ → ℚ} {i j : ℕ} (h : ¬(i < pts.length ∧ j < pts.length)) :
    covRebuild k pts noise old i j = old i j := by
  unfold covRebuild
  rw [if_neg h]

theorem covRebuild_old_irrel {k : Point → Point → ℚ} {pts : List Point} {noise : ℚ}
    {old old' : ℕ → ℕ → ℚ} {i j : ℕ} (hi : i < pts.length) (hj : j < pts.length) :
    covRebuild k pts noise old i j = covRebuild k pts noise old' i j := by
  simp [covRebuild, hi, hj]

@[simp] theorem Rebuild_kernelFn (gp : GaussianProcess) :
    (Rebuild gp).kernelFn = gp.kernelFn := rfl

@[simp] theorem Rebuild_params (gp : GaussianProcess) :
    (Rebuild gp).params = gp.params := rfl

@[simp] theorem Rebuild_noise (gp : GaussianProcess) :
    (Rebuild gp).noise = gp.noise := rfl

@[simp] theorem Rebuild_points (gp : GaussianProcess) :
    (Rebuild gp).points = gp.points := rfl

@[simp] theorem Rebuild_maxPoints (gp : GaussianProcess) :
    (Rebuild gp).maxPoints = gp.maxPoints := rfl

@[simp] theorem Rebuild_targets (gp : GaussianProcess) :
    (Rebuild gp).targets = gp.targets := rfl

@[simp] theorem Rebuild_KernelEval (gp : GaussianProcess) :
    (Rebuild gp).KernelEval = gp.KernelEval := rfl

@[simp] theorem Rebuild_covariance (gp : GaussianProcess) :
    (Rebuild gp).covariance =
      covRebuild gp.KernelEval gp.points gp.noise gp.covariance := rfl

@[simp] theorem Rebuild_lltN (gp : GaussianProcess) :
    (Rebuild gp).lltN = gp.points.length := rfl

@[simp] theorem Rebuild_lltA (gp : GaussianProcess) :
    (Rebuild gp).lltA =
      covRebuild gp.KernelEval gp.points gp.noise gp.covariance := rfl

@[simp] theorem Rebuild_regressed (gp : GaussianProcess) :
    (Rebuild gp).regressed = fun i =>
      if i < gp.points.length then
        lltSolve gp.points.length
          (covRebuild gp.KernelEval gp.points gp.noise gp.covariance)
          gp.targets i
      else gp.regressed i := rfl

theorem dotN_one (a b : ℕ → ℚ) : dotN 1 a b = a 0 * b 0 := by
  simp [dotN]

theorem dotN_two (a b : ℕ → ℚ) : dotN 2 a b = a 0 * b 0 + a 1 * b 1 := by
  simp [dotN, Finset.sum_range_succ]

theorem lltSolve_one_zero (A : ℕ → ℕ → ℚ) (b : ℕ → ℚ) :
    lltSolve 1 A b 0 = (A 0 0)⁻¹ * b 0 := by
  simp [lltSolve, matInv, covBlock, Matrix.det_fin_one, Matrix.adjugate_fin_one,
    Matrix.mulVec, Matrix.dotProduct, Fin.sum_univ_one, Matrix.smul_apply,
    Matrix.one_apply, Matrix.of_apply, smul_eq_mul]

theorem lltSolve_ge (N : ℕ) (A : ℕ → ℕ → ℚ) (b : ℕ → ℚ) {i : ℕ} (h : N ≤ i) :
    lltSolve N A b i = b i := by
  simp [lltSolve, Nat.not_lt.mpr h]

theorem lltSolve_two_zero (A : ℕ → ℕ → ℚ) (b : ℕ → ℚ) :
    lltSolve 2 A b 0 =
      (A 0 0 * A 1 1 - A 0 1 * A 1 0)⁻¹ * (A 1 1 * b 0 - A 0 1 * b 1) := by
  simp [lltSolve, matInv, covBlock, Matrix.det_fin_two, Matrix.adjugate_fin_two,
    Matrix.mulVec, Matrix.dotProduct, Fin.sum_univ_two, Matrix.smul_apply,
    Matrix.of_apply, smul_eq_mul]
  ring

theorem lltSolve_two_one (A : ℕ → ℕ → ℚ) (b : ℕ → ℚ) :
    lltSolve 2 A b 1 =
      (A 0 0 * A 1 1 - A 0 1 * A 1 0)⁻¹ * (A 0 0 * b 1 - A 1 0 * b 0) := by
  simp [lltSolve, matInv, covBlock, Matrix.det_fin_two, Matrix.adjugate_fin_two,
    Matrix.mulVec, Matrix.dotProduct, Fin.sum_univ_two, Matrix.smul_apply,
    Matrix.of_apply, smul_eq_mul]
  ring

theorem freshlyRebuilt_ex {gp : GaussianProcess} (h : FreshlyRebuilt gp) :
    ∃ gp0, gp = Rebuild gp0 := by
  rcases h with ⟨kF, ps, noise, d, mP, unif, nrm, u, h⟩ |
    ⟨kF, ps, noise, pts, mP, nrm, u, h⟩ | ⟨kF, ps, noise, pts, tg, mP, u, h⟩ |
    ⟨gp0, opt, h⟩
  · simp only [construct1] at h
    split at h
    · exact ⟨_, (Option.some.inj h).symm⟩
    · exact absurd h (by simp)
  · simp only [construct2] at h
    split at h
    · exact ⟨_, (Option.some.inj h).symm⟩
    · exact absurd h (by simp)
  · simp only [construct3] at h
    split at h
    · exact ⟨_, (Option.some.inj h).symm⟩
    · exact absurd h (by simp)
  · exact ⟨_, h.symm⟩

/-! ### Claim C1 -/

/-- Claim C1 exhibit (code bug): on a below-capacity instance
(`n = 1 < max_points = 2`) the mean returned by `Evaluate` is not the
dot product of the `n`-length cross-covariance vector with the
regressed coefficients.  The size-mismatched `cross.dot(regressed_)`
iterates `max_points` entries (Eigen sizes the mismatched
coefficient-wise operation by its right operand), multiplying
out-of-bounds bytes past the `n`-length `cross` buffer with the stale
`regressed_` tail, so the result depends on indeterminate memory: the
spec's `n`-length dot here is `1`; with the out-of-bounds bytes reading
`0` the code also returns mean `1`, with them reading `1` it returns
mean `6`.  A debug build aborts at the dot's size assertion.  The
variance component is as the claim states (its dot has matched
lengths). -/
theorem evaluate_mean_out_of_bounds :
    (Rebuild (tailGP 5)).points.length = 1 ∧
    (Rebuild (tailGP 5)).maxPoints = 2 ∧
    dotN (Rebuild (tailGP 5)).points.length
      ((Rebuild (tailGP 5)).CrossCovariance [0])
      (Rebuild (tailGP 5)).regressed = 1 ∧
    ((Rebuild (tailGP 5)).Evaluate (fun _ => 0) [0]).1 = 1 ∧
    ((Rebuild (tailGP 5)).Evaluate (fun _ => 1) [0]).1 = 6 ∧
    ((Rebuild (tailGP 5)).Evaluate (fun _ => 1) [0]).1 ≠
      dotN (Rebuild (tailGP 5)).points.length
        ((Rebuild (tailGP 5)).CrossCovariance [0])
        (Rebuild (tailGP 5)).regressed ∧
    ((Rebuild (tailGP 5)).Evaluate (fun _ => 0) [0]).2 =
      1 - dotN (Rebuild (tailGP 5)).points.length
            ((Rebuild (tailGP 5)).CrossCovariance [0])
            (lltSolve (Rebuild (tailGP 5)).lltN (Rebuild (tailGP 5)).lltA
              ((Rebuild (tailGP 5)).CrossCovariance [0])) := by
  have hdot : dotN (Rebuild (tailGP 5)).points.length
      ((Rebuild (tailGP 5)).CrossCovariance [0])
      (Rebuild (tailGP 5)).regressed = 1 := by
    norm_num [CrossCovariance, Rebuild, RegressStep, FactorStep,
      GaussianProcess.Covariance, tailGP, covRebuild, KernelEval,
      dotN_one, lltSolve_one_zero]
  have hE0 : (Rebuild (tailGP 5)).Evaluate (fun _ => 0) [0] = (1, 1/2) := by
    norm_num [Evaluate, CrossCovariance, Rebuild, RegressStep, FactorStep,
      GaussianProcess.Covariance, tailGP, covRebuild, KernelEval,
      dotN_one, dotN_two, lltSolve_one_zero]
  have hE1 : (Rebuild (tailGP 5)).Evaluate (fun _ => 1) [0] = (6, 1/2) := by
    norm_num [Evaluate, CrossCovariance, Rebuild, RegressStep, FactorStep,
      GaussianProcess.Covariance, tailGP, covRebuild, KernelEval,
      dotN_one, dotN_two, lltSolve_one_zero]
  refine ⟨by norm_num [tailGP], rfl, hdot, ?_, ?_, ?_, rfl⟩
  · rw [hE0]
  · rw [hE1]
  · rw [hE1, hdot]
    norm_num

/-! ### Claim C5 -/

/-- Claim C5: `EvaluateTrainingPoint(i)` fails with an out-of-range error
exactly when `i ≥ points.size()` (in particular at `i = points.size()`);
for `i < n` it proceeds, using as cross-covariance vector the `i`-th
column of the covariance matrix with the noise term subtracted off its
`i`-th entry, and returns mean and variance by the same dot-product
formulas as `Evaluate` (applied to that column, whose length is the
fixed capacity `max_points`). -/
theorem evaluateTrainingPoint_formula (gp : GaussianProcess) (ii : ℕ) :
    gp.EvaluateTrainingPoint ii =
      if ii < gp.points.length then
        some
          (dotN gp.maxPoints
             (fun j => gp.covariance j ii - if j = ii then gp.noise else 0)
             gp.regressed,
           1 - dotN gp.maxPoints
             (fun j => gp.covariance j ii - if j = ii then gp.noise else 0)
             (lltSolve gp.lltN gp.lltA
               fun j => gp.covariance j ii - if j = ii then gp.noise else 0))
      else none := by
  have hc : (fun j => if j = ii then gp.covariance j ii - gp.noise
      else gp.covariance j ii) =
      fun j => gp.covariance j ii - if j = ii then gp.noise else 0 := by
    funext j
    by_cases h : j = ii <;> simp [h]
  simp only [EvaluateTrainingPoint]
  rw [hc]

/-! ### Claim C4 -/

/-- Claim C4: `LearnHyperparams` unconditionally writes the optimizer's
refined parameter buffer back into the kernel's parameter vector, then
recomputes covariance, factorization and regressed coefficients from
scratch using the updated kernel, and returns the optimizer's
usable-solution flag; a `false` flag still leaves the parameters and all
cached state updated to the optimizer's result (report-only failure, no
rollback). -/
theorem learnHyperparams_commits_and_rebuilds (gp : GaussianProcess)
    (opt : (ℕ → ℚ) → (ℕ → ℚ) × Bool) :
    (gp.LearnHyperparams opt).1.params =
        (gp.params.mapIdx fun i _ => (opt fun j => gp.params.getD j 0).1 i) ∧
    (gp.LearnHyperparams opt).1 =
        Rebuild { gp with params :=
          gp.params.mapIdx fun i _ => (opt fun j => gp.params.getD j 0).1 i } ∧
    (gp.LearnHyperparams opt).1.covariance =
        covRebuild
          (gp.kernelFn (gp.params.mapIdx fun i _ =>
            (opt fun j => gp.params.getD j 0).1 i))
          gp.points gp.noise gp.covariance ∧
    (gp.LearnHyperparams opt).2 = (opt fun j => gp.params.getD j 0).2 ∧
    ((gp.LearnHyperparams opt).2 = false →
      (gp.LearnHyperparams opt).1 =
        Rebuild { gp with params :=
          gp.params.mapIdx fun i _ => (opt fun j => gp.params.getD j 0).1 i }) :=
  ⟨rfl, rfl, rfl, rfl, fun _ => rfl⟩

/-- Witness for C4 with an optimizer that reports an unusable solution:
the state is still committed and rebuilt. -/
theorem learnHyperparams_commits_witness :
    (tinyGP.LearnHyperparams fun b => (b, false)).2 = false ∧
    (tinyGP.LearnHyperparams fun b => (b, false)).1 =
      Rebuild { tinyGP with params :=
        tinyGP.params.mapIdx fun i _ =>
          ((fun b => (b, false)) fun j => tinyGP.params.getD j 0).1 i } :=
  ⟨rfl, (learnHyperparams_commits_and_rebuilds tinyGP fun b => (b, false)).2.2.2.2 rfl⟩

/-! ### Claim C6 -/

/-- Claim C6: construction fails exactly on precondition violation: the
first overload fails iff `noise ≤ 0`, `max_points < 1` or
`dimension < 1`; the overloads taking an existing point set fail
additionally iff `points.size() > max_points`; the overload taking an
explicit target vector fails additionally iff the target length differs
from the point count; and constructing with `points.size() ==
max_points` succeeds. -/
theorem construction_failure_conditions :
    (∀ kF ps (noise : ℚ) dimension maxPoints unif nrm u,
        construct1 kF ps noise dimension maxPoints unif nrm u = none ↔
          noise ≤ 0 ∨ maxPoints < 1 ∨ dimension < 1) ∧
    (∀ kF ps (noise : ℚ) pts maxPoints nrm u,
        construct2 kF ps noise pts maxPoints nrm u = none ↔
          noise ≤ 0 ∨ maxPoints < 1 ∨ maxPoints < pts.length) ∧
    (∀ kF ps (noise : ℚ) pts tgts maxPoints u,
        construct3 kF ps noise pts tgts maxPoints u = none ↔
          noise ≤ 0 ∨ maxPoints < 1 ∨ maxPoints < pts.length ∨
            pts.length ≠ tgts.length) ∧
    (∀ kF ps (noise : ℚ) pts maxPoints nrm u, pts.length = maxPoints →
        1 ≤ maxPoints → 0 < noise →
        (construct2 kF ps noise pts maxPoints nrm u).isSome) := by
  refine ⟨?_, ?_, ?_, ?_⟩
  · intro kF ps noise dimension maxPoints unif nrm u
    by_cases hg : 1 ≤ maxPoints ∧ 1 ≤ dimension ∧ 0 < noise
    · simp only [construct1, if_pos hg]
      rw [iff_false_intro (Option.some_ne_none _), false_iff]
      push_neg
      exact ⟨hg.2.2, hg.1, hg.2.1⟩
    · simp only [construct1, if_neg hg, true_iff]
      by_cases h1 : 1 ≤ maxPoints
      · by_cases h2 : 1 ≤ dimension
        · by_cases h3 : 0 < noise
          · exact absurd ⟨h1, h2, h3⟩ hg
          · exact Or.inl (le_of_not_lt h3)
        · exact Or.inr (Or.inr (by omega))
      · exact Or.inr (Or.inl (by omega))
  · intro kF ps noise pts maxPoints nrm u
    by_cases hg : 1 ≤ maxPoints ∧ pts.length ≤ maxPoints ∧ 0 < noise
    · simp only [construct2, if_pos hg]
      rw [iff_false_intro (Option.some_ne_none _), false_iff]
      push_neg
      exact ⟨hg.2.2, hg.1, hg.2.1⟩
    · simp only [construct2, if_neg hg, true_iff]
      by_cases h1 : 1 ≤ maxPoints
      · by_cases h2 : pts.length ≤ maxPoints
        · by_cases h3 : 0 < noise
          · exact absurd ⟨h1, h2, h3⟩ hg
          · exact Or.inl (le_of_not_lt h3)
        · exact Or.inr (Or.inr (by omega))
      · exact Or.inr (Or.inl (by omega))
  · intro kF ps noise pts tgts maxPoints u
    by_cases hg : 1 ≤ maxPoints ∧ pts.length ≤ maxPoints ∧
        pts.length = tgts.length ∧ 0 < noise
    · simp only [construct3, if_pos hg]
      rw [iff_false_intro (Option.some_ne_none _), false_iff]
      push_neg
      exact ⟨hg.2.2.2, hg.1, hg.2.1, hg.2.2.1⟩
    · simp only [construct3, if_neg hg, true_iff]
      by_cases h1 : 1 ≤ maxPoints
      · by_cases h2 : pts.length ≤ maxPoints
        · by_cases h4 : pts.length = tgts.length
          · by_cases h3 : 0 < noise
            · exact absurd ⟨h1, h2, h4, h3⟩ hg
            · exact Or.inl (le_of_not_lt h3)
          · exact Or.inr (Or.inr (Or.inr h4))
        · exact Or.inr (Or.inr (Or.inl (by omega)))
      · exact Or.inr (Or.inl (by omega))
  · intro kF ps noise pts maxPoints nrm u hcap h1 h3
    have hg : 1 ≤ maxPoints ∧ pts.length ≤ maxPoints ∧ 0 < noise :=
      ⟨h1, le_of_eq hcap, h3⟩
    simp [construct2, hg]

/-! ### Claim C2 -/

/-- Claim C2: after every covariance rebuild (at construction and after
`LearnHyperparams`), the top-left `n × n` block of the covariance matrix
is symmetric, every diagonal entry equals exactly `1 + noise`, and — the
kernel being symmetric, as the engine's kernel contract requires — every
off-diagonal entry `(i, j)` equals the kernel evaluated on training
points `i` and `j`. -/
theorem covariance_block_shape (gp : GaussianProcess) (h : FreshlyRebuilt gp)
    (hsym : ∀ a b, gp.KernelEval a b = gp.KernelEval b a) :
    (∀ i < gp.points.length, ∀ j < gp.points.length,
        gp.covariance i j = gp.covariance j i) ∧
    (∀ i < gp.points.length, gp.covariance i i = 1 + gp.noise) ∧
    (∀ i < gp.points.length, ∀ j < gp.points.length, i ≠ j →
        gp.covariance i j =
          gp.KernelEval (gp.points.getD i []) (gp.points.getD j [])) := by
  obtain ⟨gp0, rfl⟩ := freshlyRebuilt_ex h
  refine ⟨?_, ?_, ?_⟩
  · intro i hi j hj
    simp only [Rebuild_points] at hi hj
    simp only [Rebuild_covariance]
    exact covRebuild_mirror hi hj
  · intro i hi
    simp only [Rebuild_points] at hi
    simp only [Rebuild_covariance, Rebuild_noise]
    exact covRebuild_diag hi
  · intro i hi j hj hne
    simp only [Rebuild_points] at hi hj
    simp only [Rebuild_covariance, Rebuild_points, Rebuild_KernelEval]
    exact covRebuild_off hi hj hne hsym

/-- Witness for C2 at a concrete freshly rebuilt instance with a
symmetric kernel. -/
theorem covariance_block_shape_witness :
    FreshlyRebuilt tinyFresh ∧
    (∀ a b, tinyFresh.KernelEval a b = tinyFresh.KernelEval b a) ∧
    ((∀ i < tinyFresh.points.length, ∀ j < tinyFresh.points.length,
        tinyFresh.covariance i j = tinyFresh.covariance j i) ∧
     (∀ i < tinyFresh.points.length,
        tinyFresh.covariance i i = 1 + tinyFresh.noise) ∧
     (∀ i < tinyFresh.points.length, ∀ j < tinyFresh.points.length, i ≠ j →
        tinyFresh.covariance i j =
          tinyFresh.KernelEval (tinyFresh.points.getD i [])
            (tinyFresh.points.getD j []))) :=
  have hfresh : FreshlyRebuilt tinyFresh :=
    Or.inr (Or.inr (Or.inr ⟨tinyGP, fun b => (b, true), rfl⟩))
  have hsym : ∀ a b, tinyFresh.KernelEval a b = tinyFresh.KernelEval b a :=
    fun _ _ => rfl
  ⟨hfresh, hsym, covariance_block_shape tinyFresh hfresh hsym⟩

/-! ### Claim C3 -/

/-- Claim C3: outside of an in-progress mutation — after each of the
three constructors completes and after every `LearnHyperparams` call
completes — the factorization snapshot matches the valid covariance
block, the block is the one built from the current kernel, points and
noise, and the first `n` regressed coefficients solve
`(covariance block) · coefficients = (first n targets)` (stated under
invertibility of the block, which positive-definiteness guarantees). -/
theorem regressed_solves_system (gp : GaussianProcess) (h : FreshlyRebuilt gp)
    (hdet : IsUnit (covBlock gp.covariance gp.points.length).det) :
    gp.lltN = gp.points.length ∧
    covBlock gp.lltA gp.points.length = covBlock gp.covariance gp.points.length ∧
    (∀ i < gp.points.length, ∀ j < gp.points.length,
        gp.covariance i j =
          covRebuild gp.KernelEval gp.points gp.noise gp.covariance i j) ∧
    (covBlock gp.covariance gp.points.length *ᵥ
        fun i : Fin gp.points.length => gp.regressed i.val) =
      fun i : Fin gp.points.length => gp.targets i.val := by
  obtain ⟨gp0, rfl⟩ := freshlyRebuilt_ex h
  refine ⟨rfl, rfl, ?_, ?_⟩
  · intro i hi j hj
    simp only [Rebuild_points] at hi hj
    simp only [Rebuild_covariance, Rebuild_points, Rebuild_noise,
      Rebuild_KernelEval]
    exact covRebuild_old_irrel hi hj
  · have hreg : (fun i : Fin (Rebuild gp0).points.length =>
        (Rebuild gp0).regressed i.val) =
        matInv (covBlock (Rebuild gp0).covariance (Rebuild gp0).points.length) *ᵥ
          fun j : Fin (Rebuild gp0).points.length => (Rebuild gp0).targets j.val := by
      funext j
      have hj : j.val < gp0.points.length := j.isLt
      simp only [Rebuild_regressed, Rebuild_targets, hj, if_pos]
      rw [lltSolve_lt _ _ hj]
      rfl
    rw [hreg, mulVec_mulVec, matInv_eq_inv, Matrix.mul_nonsing_inv _ hdet,
      one_mulVec]

/-- Witness for C3 at a concrete freshly rebuilt instance whose `1 × 1`
covariance block `[[2]]` is invertible. -/
theorem regressed_solves_system_witness :
    FreshlyRebuilt tinyFresh ∧
    IsUnit (covBlock tinyFresh.covariance tinyFresh.points.length).det ∧
    (tinyFresh.lltN = tinyFresh.points.length ∧
     covBlock tinyFresh.lltA tinyFresh.points.length =
       covBlock tinyFresh.covariance tinyFresh.points.length ∧
     (∀ i < tinyFresh.points.length, ∀ j < tinyFresh.points.length,
        tinyFresh.covariance i j =
          covRebuild tinyFresh.KernelEval tinyFresh.points tinyFresh.noise
            tinyFresh.covariance i j) ∧
     (covBlock tinyFresh.covariance tinyFresh.points.length *ᵥ
        fun i : Fin tinyFresh.points.length => tinyFresh.regressed i.val) =
       fun i : Fin tinyFresh.points.length => tinyFresh.targets i.val) :=
  have hfresh : FreshlyRebuilt tinyFresh :=
    Or.inr (Or.inr (Or.inr ⟨tinyGP, fun b => (b, true), rfl⟩))
  have hdet : IsUnit (covBlock tinyFresh.covariance tinyFresh.points.length).det := by
    have h2 : (covBlock tinyFresh.covariance tinyFresh.points.length).det = 2 := by
      show (covBlock tinyFresh.covariance 1).det = 2
      rw [Matrix.det_fin_one]
      norm_num [covBlock, tinyFresh, tinyGP, GaussianProcess.LearnHyperparams,
        Rebuild, GaussianProcess.Covariance, FactorStep, RegressStep,
        covRebuild, KernelEval]
    rw [h2]
    exact isUnit_iff_ne_zero.mpr (by norm_num)
  ⟨hfresh, hdet, regressed_solves_system tinyFresh hfresh hdet⟩

/-- Witness for C6: the at-capacity boundary construction succeeds on a
concrete input (one point, capacity one). -/
theorem construction_boundary_witness :
    ([[(0 : ℚ)]] : List Point).length = 1 ∧ (1 : ℕ) ≤ 1 ∧ (0 : ℚ) < 1 ∧
    (construct2 (fun _ _ _ => 0) [] 1 [[0]] 1 (fun _ => 0) uZero).isSome :=
  ⟨rfl, le_refl 1, by norm_num,
    construction_failure_conditions.2.2.2 (fun _ _ _ => 0) [] 1 [[0]] 1
      (fun _ => 0) uZero rfl (le_refl 1) (by norm_num)⟩

/-! ### Claim C8 -/

/-- Claim C8: the constructor taking kernel, noise, dimension and
capacity synthesizes exactly `max_points / 10 + 1` (integer division)
initial points, each of the given dimension with every coordinate a
draw of the uniform-on-`[-1,1]` sampler (hence in `[-1,1]`), and one
target per point drawn from the zero-mean normal sampler, before
building covariance, factorization and coefficients. -/
theorem construct1_synthesis (kF : List ℚ → Point → Point → ℚ) (ps : List ℚ)
    (noise : ℚ) (dimension maxPoints : ℕ) (unif nrm : ℕ → ℚ) (u : Uninit)
    (hm : 1 ≤ maxPoints) (hd : 1 ≤ dimension) (hn : 0 < noise) :
    ∃ gp, construct1 kF ps noise dimension maxPoints unif nrm u = some gp ∧
      gp.points.length = maxPoints / 10 + 1 ∧
      (∀ p ∈ gp.points, p.length = dimension) ∧
      gp.points = (List.range (maxPoints / 10 + 1)).map (fun ii =>
        (List.range dimension).map fun jj => unif (ii * dimension + jj)) ∧
      ((∀ i, -1 ≤ unif i ∧ unif i ≤ 1) →
        ∀ p ∈ gp.points, ∀ coord ∈ p, -1 ≤ coord ∧ coord ≤ 1) ∧
      (∀ i < maxPoints / 10 + 1, gp.targets i = nrm i) := by
  have hg : 1 ≤ maxPoints ∧ 1 ≤ dimension ∧ 0 < noise := ⟨hm, hd, hn⟩
  simp only [construct1, if_pos hg]
  refine ⟨_, rfl, ?_, ?_, rfl, ?_, ?_⟩
  · simp
  · intro p hp
    simp only [Rebuild_points, List.mem_map] at hp
    obtain ⟨ii, _, rfl⟩ := hp
    simp
  · intro hrange p hp coord hcoord
    simp only [Rebuild_points, List.mem_map] at hp
    obtain ⟨ii, _, rfl⟩ := hp
    simp only [List.mem_map] at hcoord
    obtain ⟨jj, _, rfl⟩ := hcoord
    exact hrange (ii * dimension + jj)
  · intro i hi
    simp only [Rebuild_targets]
    simp [hi]

/-- Witness for C8 at concrete constructor arguments. -/
theorem construct1_synthesis_witness :
    (1 : ℕ) ≤ 1 ∧ (1 : ℕ) ≤ 1 ∧ (0 : ℚ) < 1 ∧
    (∃ gp, construct1 (fun _ _ _ => 0) [] 1 1 1 (fun _ => 0) (fun _ => 0)
        uZero = some gp ∧
      gp.points.length = 1 / 10 + 1 ∧
      (∀ p ∈ gp.points, p.length = 1) ∧
      gp.points = (List.range (1 / 10 + 1)).map (fun ii =>
        (List.range 1).map fun jj => (fun _ => (0 : ℚ)) (ii * 1 + jj)) ∧
      ((∀ i : ℕ, -1 ≤ (fun _ => (0 : ℚ)) i ∧ (fun _ => (0 : ℚ)) i ≤ 1) →
        ∀ p ∈ gp.points, ∀ coord ∈ p, -1 ≤ coord ∧ coord ≤ 1) ∧
      (∀ i < 1 / 10 + 1, gp.targets i = (fun _ => (0 : ℚ)) i)) :=
  ⟨le_refl 1, le_refl 1, by norm_num,
    construct1_synthesis (fun _ _ _ => 0) [] 1 1 1 (fun _ => 0) (fun _ => 0)
      uZero (le_refl 1) (le_refl 1) (by norm_num)⟩

/-! ### Claim C7 -/

/-- Claim C7: for every freshly rebuilt GP instance with positive noise
whose kernel is symmetric, positive-semidefinite (every finite quadratic
form of kernel evaluations is non-negative) and of unit self-similarity,
and for every query point, the variance returned by `Evaluate` is
non-negative: in exact arithmetic `1 - cᵀ K⁻¹ c ≥ 0`. -/
theorem evaluate_variance_nonneg (gp : GaussianProcess) (oob : ℕ → ℚ)
    (x : Point)
    (hfresh : FreshlyRebuilt gp) (hnoise : 0 < gp.noise)
    (hsym : ∀ a b, gp.KernelEval a b = gp.KernelEval b a)
    (hunit : ∀ p, gp.KernelEval p p = 1)
    (hpsd : ∀ (m : ℕ) (q : Fin m → Point) (w : Fin m → ℚ),
        0 ≤ ∑ i, ∑ j, w i * w j * gp.KernelEval (q i) (q j)) :
    0 ≤ (gp.Evaluate oob x).2 := by
  obtain ⟨gp0, rfl⟩ := freshlyRebuilt_ex hfresh
  simp only [Rebuild_KernelEval] at hsym hunit hpsd
  simp only [Rebuild_noise] at hnoise
  set n := gp0.points.length with hn
  set k := gp0.KernelEval with hkdef
  set p : Fin n → Point := fun i => gp0.points.getD i.val [] with hp
  set cov2 := covRebuild gp0.KernelEval gp0.points gp0.noise gp0.covariance
    with hcov2
  set K : Matrix (Fin n) (Fin n) ℚ := covBlock cov2 n with hKdef
  set G : Matrix (Fin n) (Fin n) ℚ := Matrix.of fun i j => k (p i) (p j)
    with hGdef
  set c : Fin n → ℚ := fun i => k (p i) x with hcdef
  -- the rebuilt block is the kernel Gram matrix plus the noise ridge
  have hKeq : K = G + gp0.noise • (1 : Matrix (Fin n) (Fin n) ℚ) := by
    ext i j
    by_cases he : i = j
    · subst he
      have h1 : K i i = 1 + gp0.noise := covRebuild_diag i.isLt
      have h2 : G i i = 1 := hunit (p i)
      simp [h1, h2, Matrix.one_apply_eq]
    · have hv : i.val ≠ j.val := fun hh => he (Fin.ext hh)
      have h1 : K i j = k (p i) (p j) :=
        covRebuild_off i.isLt j.isLt hv hsym
      have h2 : G i j = k (p i) (p j) := rfl
      simp [h1, h2, Matrix.one_apply_ne he]
  -- quadratic forms of G are the kernel quadratic forms
  have hquad : ∀ w : Fin n → ℚ,
      w ⬝ᵥ (G *ᵥ w) = ∑ i, ∑ j, w i * w j * k (p i) (p j) := by
    intro w
    simp only [dotProduct, mulVec, Finset.mul_sum]
    exact Finset.sum_congr rfl fun i _ => Finset.sum_congr rfl fun j _ => by
      simp only [hGdef, Matrix.of_apply]
      ring
  have hGpsd : ∀ w : Fin n → ℚ, 0 ≤ w ⬝ᵥ (G *ᵥ w) := by
    intro w
    rw [hquad w]
    exact hpsd n p w
  have hKquad : ∀ w : Fin n → ℚ,
      w ⬝ᵥ (K *ᵥ w) = w ⬝ᵥ (G *ᵥ w) + gp0.noise * (w ⬝ᵥ w) := by
    intro w
    rw [hKeq, Matrix.add_mulVec, Matrix.dotProduct_add,
      Matrix.smul_mulVec_assoc, Matrix.one_mulVec, Matrix.dotProduct_smul,
      smul_eq_mul]
  -- the noise ridge makes the block invertible
  have hdet : K.det ≠ 0 := by
    intro h0
    obtain ⟨w, hw0, hKw⟩ := Matrix.exists_mulVec_eq_zero_iff.mpr h0
    have h1 : w ⬝ᵥ (K *ᵥ w) = 0 := by rw [hKw, Matrix.dotProduct_zero]
    have h2 : w ⬝ᵥ w ≠ 0 := fun h => hw0 (Matrix.dotProduct_self_eq_zero.mp h)
    have h3 : 0 ≤ w ⬝ᵥ w := Finset.sum_nonneg fun i _ => mul_self_nonneg (w i)
    have h4 : 0 < w ⬝ᵥ w := lt_of_le_of_ne h3 (Ne.symm h2)
    have h5 := hKquad w
    have h6 := hGpsd w
    nlinarith
  have hIsUnit : IsUnit K.det := isUnit_iff_ne_zero.mpr hdet
  set v : Fin n → ℚ := matInv K *ᵥ c with hvdef
  have hKv : K *ᵥ v = c := by
    rw [hvdef, mulVec_mulVec, matInv_eq_inv, Matrix.mul_nonsing_inv _ hIsUnit,
      one_mulVec]
  -- the variance returned by Evaluate is 1 - c ⬝ᵥ v
  have hcross : (fun i : Fin n => (Rebuild gp0).CrossCovariance x i.val) = c := by
    funext i
    have hi : i.val < gp0.points.length := i.isLt
    simp only [CrossCovariance, Rebuild_points, Rebuild_KernelEval, hi, if_pos]
  have hsolve : (fun i : Fin n =>
      lltSolve n cov2 ((Rebuild gp0).CrossCovariance x) i.val) = v := by
    funext i
    rw [lltSolve_lt _ _ i.isLt]
    have : (fun j : Fin n => (Rebuild gp0).CrossCovariance x j.val) = c := hcross
    rw [this]
  have hEv : ((Rebuild gp0).Evaluate oob x).2 = 1 - c ⬝ᵥ v := by
    show 1 - dotN n ((Rebuild gp0).CrossCovariance x)
        (lltSolve n cov2 ((Rebuild gp0).CrossCovariance x)) = 1 - c ⬝ᵥ v
    rw [dotN_eq_dotProduct, hcross, hsolve]
  rw [hEv]
  -- instantiate kernel positive-semidefiniteness on points ++ [x] with
  -- coefficients (-v, 1)
  have hmain := hpsd (n + 1) (Fin.snoc p x) (Fin.snoc (fun i => -(v i)) 1)
  have hsplit : (∑ i, ∑ j,
      (Fin.snoc (fun i : Fin n => -(v i)) (1 : ℚ) : Fin (n + 1) → ℚ) i *
        (Fin.snoc (fun i : Fin n => -(v i)) (1 : ℚ) : Fin (n + 1) → ℚ) j *
        k ((Fin.snoc p x : Fin (n + 1) → Point) i)
          ((Fin.snoc p x : Fin (n + 1) → Point) j)) =
      (∑ i, ∑ j, v i * v j * k (p i) (p j)) - (v ⬝ᵥ c) - (v ⬝ᵥ c) + 1 := by
    have e1 : ∀ i : Fin n, ∑ j : Fin n,
        (-(v i)) * (-(v j)) * k (p i) (p j) =
        ∑ j : Fin n, v i * v j * k (p i) (p j) :=
      fun i => Finset.sum_congr rfl fun j _ => by ring
    have e2 : ∑ i : Fin n, (-(v i)) * 1 * k (p i) x = -(v ⬝ᵥ c) := by
      simp only [dotProduct, hcdef]
      rw [← Finset.sum_neg_distrib]
      exact Finset.sum_congr rfl fun i _ => by ring
    have e3 : ∑ j : Fin n, 1 * (-(v j)) * k x (p j) = -(v ⬝ᵥ c) := by
      simp only [dotProduct, hcdef]
      rw [← Finset.sum_neg_distrib]
      refine Finset.sum_congr rfl fun j _ => ?_
      rw [hsym x (p j)]
      ring
    calc ∑ i, ∑ j,
        (Fin.snoc (fun i : Fin n => -(v i)) (1 : ℚ) : Fin (n + 1) → ℚ) i *
          (Fin.snoc (fun i : Fin n => -(v i)) (1 : ℚ) : Fin (n + 1) → ℚ) j *
          k ((Fin.snoc p x : Fin (n + 1) → Point) i)
            ((Fin.snoc p x : Fin (n + 1) → Point) j)
        = (∑ i : Fin n, ((∑ j : Fin n, (-(v i)) * (-(v j)) * k (p i) (p j)) +
             (-(v i)) * 1 * k (p i) x)) +
          ((∑ j : Fin n, 1 * (-(v j)) * k x (p j)) + 1 * 1 * k x x) := by
          simp only [Fin.sum_univ_castSucc, Fin.snoc_castSucc, Fin.snoc_last]
      _ = (∑ i, ∑ j, v i * v j * k (p i) (p j)) - (v ⬝ᵥ c) - (v ⬝ᵥ c) + 1 := by
          rw [Finset.sum_add_distrib, e3, hunit x, e2,
            Finset.sum_congr rfl fun i _ => e1 i]
          ring
  rw [hsplit] at hmain
  have hfin1 : ∑ i, ∑ j, v i * v j * k (p i) (p j) =
      v ⬝ᵥ c - gp0.noise * (v ⬝ᵥ v) := by
    rw [← hquad v]
    have := hKquad v
    rw [hKv] at this
    linarith
  have hvv : 0 ≤ v ⬝ᵥ v := Finset.sum_nonneg fun i _ => mul_self_nonneg (v i)
  have hcomm : c ⬝ᵥ v = v ⬝ᵥ c := Matrix.dotProduct_comm c v
  nlinarith [mul_nonneg hnoise.le hvv]

/-- Witness for C7 at a concrete freshly rebuilt instance with the
constant-one kernel (symmetric, unit self-similarity, positive
semidefinite) and a concrete query point. -/
theorem evaluate_variance_nonneg_witness :
    FreshlyRebuilt tinyFresh ∧ 0 < tinyFresh.noise ∧
    (∀ a b, tinyFresh.KernelEval a b = tinyFresh.KernelEval b a) ∧
    (∀ p, tinyFresh.KernelEval p p = 1) ∧
    (∀ (m : ℕ) (q : Fin m → Point) (w : Fin m → ℚ),
        0 ≤ ∑ i, ∑ j, w i * w j * tinyFresh.KernelEval (q i) (q j)) ∧
    0 ≤ (tinyFresh.Evaluate (fun _ => 0) [5]).2 :=
  have hfresh : FreshlyRebuilt tinyFresh :=
    Or.inr (Or.inr (Or.inr ⟨tinyGP, fun b => (b, true), rfl⟩))
  have hnoise : 0 < tinyFresh.noise := by
    show (0 : ℚ) < 1
    norm_num
  have hsym : ∀ a b, tinyFresh.KernelEval a b = tinyFresh.KernelEval b a :=
    fun _ _ => rfl
  have hunit : ∀ p, tinyFresh.KernelEval p p = 1 := fun _ => rfl
  have hpsd : ∀ (m : ℕ) (q : Fin m → Point) (w : Fin m → ℚ),
      0 ≤ ∑ i, ∑ j, w i * w j * tinyFresh.KernelEval (q i) (q j) := by
    intro m q w
    have h1 : ∑ i, ∑ j, w i * w j * tinyFresh.KernelEval (q i) (q j) =
        (∑ i, w i) * (∑ j, w j) := by
      rw [Finset.sum_mul_sum]
      exact Finset.sum_congr rfl fun i _ => Finset.sum_congr rfl fun j _ => by
        show w i * w j * 1 = w i * w j
        ring
    rw [h1]
    exact mul_self_nonneg _
  ⟨hfresh, hnoise, hsym, hunit, hpsd,
    evaluate_variance_nonneg tinyFresh (fun _ => 0) [5] hfresh hnoise hsym
      hunit hpsd⟩

/-! ### Claim C9 -/

/-- Claim C9 exhibit (code bug): two freshly rebuilt states that agree on
kernel, points, noise, targets, the entire covariance buffer and every
regressed entry at index below the point count `n = 1 < max_points = 2`,
and differ only in the stale regressed entry at index `1 ≥ n`, return
different results from BOTH query functions: `EvaluateTrainingPoint`'s
full-column dot products read fixed-capacity buffer entries at index
`≥ n`, and `Evaluate`'s size-mismatched mean dot multiplies the stale
regressed tail with out-of-bounds bytes past the `n`-length cross
buffer (so its result also depends on those bytes, shown by varying the
`oob` argument). -/
theorem evaluateTrainingPoint_reads_stale_tail :
    (Rebuild (tailGP 5)).points.length = 1 ∧
    (Rebuild (tailGP 5)).maxPoints = 2 ∧
    (Rebuild (tailGP 5)).regressed 0 = (Rebuild (tailGP 7)).regressed 0 ∧
    (Rebuild (tailGP 5)).covariance = (Rebuild (tailGP 7)).covariance ∧
    (Rebuild (tailGP 5)).targets = (Rebuild (tailGP 7)).targets ∧
    (Rebuild (tailGP 5)).regressed 1 ≠ (Rebuild (tailGP 7)).regressed 1 ∧
    (Rebuild (tailGP 5)).Evaluate (fun _ => 1) [0] ≠
      (Rebuild (tailGP 7)).Evaluate (fun _ => 1) [0] ∧
    (Rebuild (tailGP 5)).Evaluate (fun _ => 0) [0] ≠
      (Rebuild (tailGP 5)).Evaluate (fun _ => 1) [0] ∧
    (Rebuild (tailGP 5)).EvaluateTrainingPoint 0 ≠
      (Rebuild (tailGP 7)).EvaluateTrainingPoint 0 := by
  have hA5 : (Rebuild (tailGP 5)).EvaluateTrainingPoint 0 = some (6, -(1/2)) := by
    norm_num [EvaluateTrainingPoint, Rebuild, RegressStep, FactorStep,
      GaussianProcess.Covariance, tailGP, covRebuild, KernelEval,
      dotN_two, lltSolve_one_zero, lltSolve_ge]
  have hA7 : (Rebuild (tailGP 7)).EvaluateTrainingPoint 0 = some (8, -(1/2)) := by
    norm_num [EvaluateTrainingPoint, Rebuild, RegressStep, FactorStep,
      GaussianProcess.Covariance, tailGP, covRebuild, KernelEval,
      dotN_two, lltSolve_one_zero, lltSolve_ge]
  have hE50 : (Rebuild (tailGP 5)).Evaluate (fun _ => 0) [0] = (1, 1/2) := by
    norm_num [Evaluate, CrossCovariance, Rebuild, RegressStep, FactorStep,
      GaussianProcess.Covariance, tailGP, covRebuild, KernelEval,
      dotN_one, dotN_two, lltSolve_one_zero]
  have hE51 : (Rebuild (tailGP 5)).Evaluate (fun _ => 1) [0] = (6, 1/2) := by
    norm_num [Evaluate, CrossCovariance, Rebuild, RegressStep, FactorStep,
      GaussianProcess.Covariance, tailGP, covRebuild, KernelEval,
      dotN_one, dotN_two, lltSolve_one_zero]
  have hE71 : (Rebuild (tailGP 7)).Evaluate (fun _ => 1) [0] = (8, 1/2) := by
    norm_num [Evaluate, CrossCovariance, Rebuild, RegressStep, FactorStep,
      GaussianProcess.Covariance, tailGP, covRebuild, KernelEval,
      dotN_one, dotN_two, lltSolve_one_zero]
  refine ⟨by norm_num [tailGP], rfl, ?_, rfl, rfl, ?_, ?_, ?_, ?_⟩
  · norm_num [Rebuild, RegressStep, FactorStep, GaussianProcess.Covariance,
      tailGP, covRebuild, KernelEval, lltSolve_one_zero]
  · norm_num [Rebuild, RegressStep, FactorStep, GaussianProcess.Covariance,
      tailGP]
  · rw [hE51, hE71]
    intro h
    rw [Prod.mk.injEq] at h
    exact absurd h.1 (by norm_num)
  · rw [hE50, hE51]
    intro h
    rw [Prod.mk.injEq] at h
    exact absurd h.1 (by norm_num)
  · rw [hA5, hA7]
    intro h
    rw [Option.some.injEq, Prod.mk.injEq] at h
    exact absurd h.1 (by norm_num)

/-! ### Claim C10 -/

/-- Claim C10 counterexample: `EvaluateTrainingPoint(i)` can differ from
`Evaluate(points[i])` on a freshly rebuilt state with a
unit-self-similarity kernel.  Part (a): below capacity with a symmetric
kernel — `EvaluateTrainingPoint`'s variance is `-1/2` because its
full-length dot products pick up the stale buffer tail, while
`Evaluate`'s variance is `1/2` (its variance path has matched lengths
and is independent of the out-of-bounds bytes, here fixed to `0`).
Part (b): at full capacity — where `Evaluate` involves no out-of-bounds
or stale reads at all — with an asymmetric kernel, the means differ,
because the mirrored covariance column holds the kernel arguments in
the opposite order from the cross-covariance vector. -/
theorem etp_ne_evaluate_counterexample :
    ((∀ a b, (Rebuild (tailGP 5)).KernelEval a b =
        (Rebuild (tailGP 5)).KernelEval b a) ∧
     (∀ p, (Rebuild (tailGP 5)).KernelEval p p = 1) ∧
     FreshlyRebuilt (Rebuild (tailGP 5)) ∧
     0 < (Rebuild (tailGP 5)).points.length ∧
     (Rebuild (tailGP 5)).EvaluateTrainingPoint 0 ≠
       some ((Rebuild (tailGP 5)).Evaluate (fun _ => 0)
         ((Rebuild (tailGP 5)).points.getD 0 []))) ∧
    ((∀ p, (Rebuild skewGP).KernelEval p p = 1) ∧
     FreshlyRebuilt (Rebuild skewGP) ∧
     (Rebuild skewGP).points.length = (Rebuild skewGP).maxPoints ∧
     (Rebuild skewGP).EvaluateTrainingPoint 1 ≠
       some ((Rebuild skewGP).Evaluate (fun _ => 0)
         ((Rebuild skewGP).points.getD 1 []))) := by
  constructor
  · refine ⟨fun _ _ => rfl, fun _ => rfl,
      Or.inr (Or.inr (Or.inr ⟨tailGP 5, fun b => (b, true), rfl⟩)),
      by norm_num [tailGP], ?_⟩
    have hA : (Rebuild (tailGP 5)).EvaluateTrainingPoint 0 = some (6, -(1/2)) := by
      norm_num [EvaluateTrainingPoint, Rebuild, RegressStep, FactorStep,
        GaussianProcess.Covariance, tailGP, covRebuild, KernelEval,
        dotN_two, lltSolve_one_zero, lltSolve_ge]
    have hE : (Rebuild (tailGP 5)).Evaluate (fun _ => 0)
        ((Rebuild (tailGP 5)).points.getD 0 []) = (1, 1/2) := by
      show (Rebuild (tailGP 5)).Evaluate (fun _ => 0) [0] = (1, 1/2)
      norm_num [Evaluate, CrossCovariance, Rebuild, RegressStep, FactorStep,
        GaussianProcess.Covariance, tailGP, covRebuild, KernelEval,
        dotN_one, dotN_two, lltSolve_one_zero]
    rw [hA, hE]
    intro h
    rw [Option.some.injEq, Prod.mk.injEq] at h
    exact absurd h.2 (by norm_num)
  · refine ⟨?_, Or.inr (Or.inr (Or.inr ⟨skewGP, fun b => (b, true), rfl⟩)),
      rfl, ?_⟩
    · intro p
      show (if p = p then (1 : ℚ) else _) = 1
      simp
    · have hA : (Rebuild skewGP).EvaluateTrainingPoint 1 = some (1/2, 7/15) := by
        norm_num [EvaluateTrainingPoint, Rebuild, RegressStep, FactorStep,
          GaussianProcess.Covariance, skewGP, covRebuild, KernelEval,
          dotN_two, lltSolve_two_zero, lltSolve_two_one]
      have hE : (Rebuild skewGP).Evaluate (fun _ => 0)
          ((Rebuild skewGP).points.getD 1 []) = (0, 7/15) := by
        show (Rebuild skewGP).Evaluate (fun _ => 0) [1] = (0, 7/15)
        norm_num [Evaluate, CrossCovariance, Rebuild, RegressStep, FactorStep,
          GaussianProcess.Covariance, skewGP, covRebuild, KernelEval,
          dotN_two, lltSolve_two_zero, lltSolve_two_one]
      rw [hA, hE]
      intro h
      rw [Option.some.injEq, Prod.mk.injEq] at h
      exact absurd h.1 (by norm_num)

/-- Claim C10 as amended: on a freshly rebuilt state whose kernel is
symmetric with unit self-similarity on the training points, and whose
point count has reached the fixed capacity (so the buffers have no stale
tail, and `Evaluate` performs no out-of-bounds read — its result is
independent of the `oob` contents), `EvaluateTrainingPoint(i)` returns
exactly `Evaluate(points[i])` for every training index `i`. -/
theorem evaluateTrainingPoint_matches_evaluate (gp : GaussianProcess)
    (oob : ℕ → ℚ) (i : ℕ)
    (hfresh : FreshlyRebuilt gp)
    (hsym : ∀ a b, gp.KernelEval a b = gp.KernelEval b a)
    (hunit : ∀ p ∈ gp.points, gp.KernelEval p p = 1)
    (hcap : gp.points.length = gp.maxPoints)
    (hi : i < gp.points.length) :
    gp.EvaluateTrainingPoint i =
      some (gp.Evaluate oob (gp.points.getD i [])) := by
  obtain ⟨gp0, rfl⟩ := freshlyRebuilt_ex hfresh
  simp only [Rebuild_points, Rebuild_maxPoints] at hi hcap
  simp only [Rebuild_KernelEval, Rebuild_points] at hsym hunit
  have hxmem : gp0.points.getD i [] ∈ gp0.points := by
    rw [List.getD_eq_getElem _ _ hi]
    exact List.getElem_mem hi
  have hagree : ∀ j < gp0.points.length,
      (if j = i then (Rebuild gp0).covariance j i - (Rebuild gp0).noise
        else (Rebuild gp0).covariance j i) =
      (Rebuild gp0).CrossCovariance (gp0.points.getD i []) j := by
    intro j hj
    by_cases hji : j = i
    · subst hji
      have h1 : (Rebuild gp0).covariance j j = 1 + gp0.noise :=
        covRebuild_diag hj
      have h2 : (Rebuild gp0).CrossCovariance (gp0.points.getD j []) j =
          gp0.KernelEval (gp0.points.getD j []) (gp0.points.getD j []) := by
        simp [CrossCovariance, hj]
      rw [if_pos rfl, h1, h2, hunit _ hxmem]
      show 1 + gp0.noise - gp0.noise = 1
      ring
    · have h1 : (Rebuild gp0).covariance j i =
          gp0.KernelEval (gp0.points.getD j []) (gp0.points.getD i []) :=
        covRebuild_off hj hi hji hsym
      have h2 : (Rebuild gp0).CrossCovariance (gp0.points.getD i []) j =
          gp0.KernelEval (gp0.points.getD j []) (gp0.points.getD i []) := by
        simp [CrossCovariance, hj]
      rw [if_neg hji, h1, h2]
  have hagree' : ∀ j < gp0.points.length,
      (fun j => if j = i then (Rebuild gp0).covariance j i - (Rebuild gp0).noise
        else (Rebuild gp0).covariance j i) j =
      (Rebuild gp0).CrossCovariance (gp0.points.getD i []) j := hagree
  have hcount : (Rebuild gp0).maxPoints = (Rebuild gp0).points.length :=
    hcap.symm
  have hmean : dotN (Rebuild gp0).maxPoints
      (fun j => if j = i then (Rebuild gp0).covariance j i - (Rebuild gp0).noise
        else (Rebuild gp0).covariance j i) (Rebuild gp0).regressed =
      dotN (Rebuild gp0).maxPoints
        (fun j => if j < (Rebuild gp0).points.length
          then (Rebuild gp0).CrossCovariance ((Rebuild gp0).points.getD i []) j
          else oob j)
        (Rebuild gp0).regressed := by
    rw [hcount]
    refine dotN_congr ?_ fun _ _ => rfl
    intro j hj
    simp only [hj, if_true]
    exact hagree j hj
  have hvar : 1 - dotN (Rebuild gp0).maxPoints
      (fun j => if j = i then (Rebuild gp0).covariance j i - (Rebuild gp0).noise
        else (Rebuild gp0).covariance j i)
      (lltSolve (Rebuild gp0).lltN (Rebuild gp0).lltA
        fun j => if j = i then (Rebuild gp0).covariance j i - (Rebuild gp0).noise
          else (Rebuild gp0).covariance j i) =
      1 - dotN (Rebuild gp0).points.length
        ((Rebuild gp0).CrossCovariance ((Rebuild gp0).points.getD i []))
        (lltSolve (Rebuild gp0).lltN (Rebuild gp0).lltA
          ((Rebuild gp0).CrossCovariance ((Rebuild gp0).points.getD i []))) := by
    rw [hcount]
    refine congrArg (1 - ·) ?_
    exact dotN_congr hagree'
      (lltSolve_congr ((Rebuild gp0).lltA) hagree')
  unfold EvaluateTrainingPoint Evaluate
  rw [if_pos (show i < (Rebuild gp0).points.length from hi)]
  exact congrArg some (Prod.ext hmean hvar)

/-- Witness for the amended C10 at a concrete at-capacity freshly
rebuilt instance. -/
theorem evaluateTrainingPoint_matches_evaluate_witness :
    FreshlyRebuilt tinyFresh ∧
    (∀ a b, tinyFresh.KernelEval a b = tinyFresh.KernelEval b a) ∧
    (∀ p ∈ tinyFresh.points, tinyFresh.KernelEval p p = 1) ∧
    tinyFresh.points.length = tinyFresh.maxPoints ∧
    0 < tinyFresh.points.length ∧
    tinyFresh.EvaluateTrainingPoint 0 =
      some (tinyFresh.Evaluate (fun _ => 0) (tinyFresh.points.getD 0 [])) :=
  have hfresh : FreshlyRebuilt tinyFresh :=
    Or.inr (Or.inr (Or.inr ⟨tinyGP, fun b => (b, true), rfl⟩))
  have hsym : ∀ a b, tinyFresh.KernelEval a b = tinyFresh.KernelEval b a :=
    fun _ _ => rfl
  have hunit : ∀ p ∈ tinyFresh.points, tinyFresh.KernelEval p p = 1 :=
    fun _ _ => rfl
  have hcap : tinyFresh.points.length = tinyFresh.maxPoints := rfl
  have hi : 0 < tinyFresh.points.length := by
    show 0 < 1
    norm_num
  ⟨hfresh, hsym, hunit, hcap, hi,
    evaluateTrainingPoint_matches_evaluate tinyFresh (fun _ => 0) 0 hfresh hsym
      hunit hcap hi⟩

end GP
